import Mathlib

/-!
Verification of the two text-rewriting scripts of this repository
(`fix_comparison_tests.py` and `scripts/fix_cache_stats.py`).

Each script reads one file into a string, applies an ordered sequence of
global regular-expression substitutions (`re.sub`), and writes the result
back.  We embed each substitution as a deterministic matcher over
`List Char` together with a left-to-right, non-overlapping substitution
driver that mirrors the semantics of Python's `re.sub`: scan the input
left to right; at each position try to match; on a match, emit the
replacement and resume scanning right after the matched span; otherwise
emit the current character and advance by one.

Every regular expression occurring in the scripts is deterministic once a
start position is fixed: each greedy quantifier (`\d+`, `\w+`, `[^}]+`,
`[0-9.]+`, `\s*`) is followed by a mandatory character that the quantified
class cannot match, so the maximal-munch extent is forced and no
backtracking choice survives.  The matchers below therefore implement the
exact match extents and replacement strings of the Python originals:

* `\d+,` — maximal digit run, then a mandatory comma (a comma is not a
  digit, so no shorter run can succeed);
* `\w+:` — maximal word-character run, then a mandatory colon;
* `[^}]+}` — maximal run of non-brace characters, ending at the first
  closing brace;
* `\s*\n\s*K` (K starting with a non-space character) — matches exactly
  the maximal whitespace run, provided it contains a newline;
* `,?` before `\s*\n` — a comma is consumed iff present (skipping a
  present comma immediately fails, since a comma is not whitespace);
* `\s*\n` at the end of a pattern — matches the maximal whitespace run up
  to and including its last newline (greedy `\s*` backtracks to the last
  position whose next character is a newline), and fails if the run
  contains no newline;
* `\s*}` — matches exactly the maximal whitespace run followed by a
  mandatory closing brace.

Character classes are modelled at their ASCII meaning (`\d` = `0-9`,
`\w` = `A-Za-z0-9_`, `\s` = space, tab, newline, carriage return,
vertical tab, form feed), which is what the scripts exercise on their
ASCII TypeScript input.
-/

namespace TextPatcher

/-- ASCII digit, the class `\d`. -/
def isDigitChar (c : Char) : Bool := c.isDigit

/-- ASCII word character, the class `\w`. -/
def isWordChar (c : Char) : Bool := c.isAlphanum || c = '_'

/-- ASCII whitespace, the class `\s`. -/
def isSpaceChar (c : Char) : Bool :=
  c = ' ' || c = '\t' || c = '\n' || c = '\r' || c = '\x0b' || c = '\x0c'

/-- The class `[^}]`: any character other than a closing brace. -/
def isNotRBrace (c : Char) : Bool := !(c = '\x7d')

/-- The class `[0-9.]`: digit or dot. -/
def isNumDot (c : Char) : Bool := c.isDigit || c = '.'

/-- Match a literal character sequence at the head of the input, returning
the remainder on success. -/
def lit : List Char → List Char → Option (List Char)
  | [], l => some l
  | _ :: _, [] => none
  | p :: ps, c :: cs => if c = p then lit ps cs else none

/-- Greedy `class+`: the maximal nonempty run of characters satisfying
`p`, returning the run and the remainder.  Faithful to the regexes of the
scripts because every use is followed by a mandatory character outside the
class. -/
def plus1 (p : Char → Bool) (l : List Char) : Option (List Char × List Char) :=
  if l.takeWhile p = [] then none else some (l.takeWhile p, l.dropWhile p)

/-- Whether a character list contains a newline. -/
def hasNewline : List Char → Bool
  | [] => false
  | c :: cs => (c = '\n') || hasNewline cs

/-- The part of a character list strictly after its last newline. -/
def afterLastNl (l : List Char) : List Char :=
  (l.reverse.takeWhile (fun c => !(c = '\n'))).reverse

/-- The pattern fragment `\s*\n\s*` when followed by a literal starting
with a non-space character: consumes exactly the maximal whitespace run,
which must contain at least one newline. -/
def wsNl (l : List Char) : Option (List Char) :=
  if hasNewline (l.takeWhile isSpaceChar) then some (l.dropWhile isSpaceChar) else none

/-- The pattern fragment `\s*\n` at the end of a pattern: consumes the
maximal whitespace run up to and including its last newline; fails if the
run contains no newline. -/
def wsUpToNl (l : List Char) : Option (List Char) :=
  if hasNewline (l.takeWhile isSpaceChar) then
    some (afterLastNl (l.takeWhile isSpaceChar) ++ l.dropWhile isSpaceChar)
  else none

/-- The pattern fragment `,?` when followed by `\s*\n`: a comma is
consumed exactly when present. -/
def optComma (l : List Char) : List Char :=
  match l with
  | c :: t => if c = ',' then t else l
  | [] => []

/-- Literal `"cacheMisses: "` of the first script's first pattern. -/
def litCacheMissesKey : List Char := ("cacheMisses: ").data

/-- Literal `"unitBreakdown: {"` of the first script's second pattern. -/
def litUnitBreakdownKey : List Char := ("unitBreakdown: \x7b").data

/-- Literal `"const "` of the second script's first pattern. -/
def litConstKw : List Char := ("const ").data

/-- Literal `": CacheStats = "` shared by the second script's patterns. -/
def litCacheStatsEq : List Char := (": CacheStats = ").data

/-- Literal `"frequency: "` of the second script's third pattern. -/
def litFrequencyKey : List Char := ("frequency: ").data

/-- The replacement string `'}\n      }'` of the first script's third
substitution: a closing brace, a newline, six spaces, a closing brace. -/
def braceCommaRepl : List Char := ("\x7d\n      \x7d").data

/-- The `complete_cache_stats` template literal of the second script. -/
def completeCacheStats : String :=
  "\x7b\n        hitRatio: 0.7,\n        size: 50,\n        maxSize: 100,\n        hits: 70,\n        misses: 30,\n        sets: 50,\n        evictions: 5,\n        hitRate: 0.7,\n        averageAccessTime: 0.002,\n        efficiency: 0.75\n      \x7d"

/-- Matcher for `(cacheMisses: \d+,)\s*\n\s*cacheMisses: \d+,` with
replacement `\1` (the first script's first substitution). -/
def matchCacheMisses (l : List Char) : Option (List Char × List Char) :=
  (lit litCacheMissesKey l).bind fun r1 =>
  (plus1 isDigitChar r1).bind fun d1 =>
  (lit [','] d1.2).bind fun r3 =>
  (wsNl r3).bind fun r4 =>
  (lit litCacheMissesKey r4).bind fun r5 =>
  (plus1 isDigitChar r5).bind fun d2 =>
  (lit [','] d2.2).bind fun r7 =>
  some (litCacheMissesKey ++ d1.1 ++ [','], r7)

/-- Matcher for `(unitBreakdown: \{[^}]+\}),?\s*\n\s*unitBreakdown: \{[^}]+\}`
with replacement `\1` (the first script's second substitution; its
`re.DOTALL` flag is irrelevant since the pattern contains no dot). -/
def matchUnitBreakdown (l : List Char) : Option (List Char × List Char) :=
  (lit litUnitBreakdownKey l).bind fun r1 =>
  (plus1 isNotRBrace r1).bind fun b1 =>
  (lit ['\x7d'] b1.2).bind fun r3 =>
  (wsNl (optComma r3)).bind fun r4 =>
  (lit litUnitBreakdownKey r4).bind fun r5 =>
  (plus1 isNotRBrace r5).bind fun b2 =>
  (lit ['\x7d'] b2.2).bind fun r7 =>
  some (litUnitBreakdownKey ++ b1.1 ++ ['\x7d'], r7)

/-- Matcher for `},\s*}` with replacement `'}\n      }'` (the first
script's third substitution). -/
def matchBraceComma (l : List Char) : Option (List Char × List Char) :=
  (lit ['\x7d', ','] l).bind fun r1 =>
  (lit ['\x7d'] (r1.dropWhile isSpaceChar)).bind fun r2 =>
  some (braceCommaRepl, r2)

/-- Matcher for `const \w+: CacheStats = \{[^}]+\};` whose replacement is
computed as in the script's lambda: everything in the match before the
first `=` (Python `m.group(0).split('=')[0]`), then `"= "`, the complete
template, and `";"` (the second script's first substitution). -/
def matchConstCacheStats (l : List Char) : Option (List Char × List Char) :=
  (lit litConstKw l).bind fun r1 =>
  (plus1 isWordChar r1).bind fun nm =>
  (lit litCacheStatsEq nm.2).bind fun r3 =>
  (lit ['\x7b'] r3).bind fun r4 =>
  (plus1 isNotRBrace r4).bind fun body =>
  (lit ['\x7d', ';'] body.2).bind fun r6 =>
  some ((litConstKw ++ nm.1 ++ litCacheStatsEq ++ '\x7b' :: (body.1 ++ ['\x7d', ';'])).takeWhile (fun c => !(c = '=')) ++ '=' :: ' ' :: (completeCacheStats.data ++ [';']), r6)

/-- Matcher for `(\w+: CacheStats = )\{[^}]+\}` with replacement `\1`
followed by the complete template (the second script's second
substitution). -/
def matchInlineCacheStats (l : List Char) : Option (List Char × List Char) :=
  (plus1 isWordChar l).bind fun nm =>
  (lit litCacheStatsEq nm.2).bind fun r2 =>
  (lit ['\x7b'] r2).bind fun r3 =>
  (plus1 isNotRBrace r3).bind fun body =>
  (lit ['\x7d'] body.2).bind fun r5 =>
  some (nm.1 ++ litCacheStatsEq ++ completeCacheStats.data, r5)

/-- Matcher for `frequency: [0-9.]+,\s*\n` with empty replacement (the
second script's third substitution). -/
def matchFrequency (l : List Char) : Option (List Char × List Char) :=
  (lit litFrequencyKey l).bind fun r1 =>
  (plus1 isNumDot r1).bind fun d1 =>
  (lit [','] d1.2).bind fun r3 =>
  (wsUpToNl r3).bind fun r4 =>
  some ([], r4)

/-- Left-to-right, non-overlapping global substitution, the semantics of
`re.sub`: at each position try the matcher; on success emit the
replacement and resume after the matched span, otherwise copy one
character.  The fuel argument (instantiated with the input length, which
always suffices since every matcher consumes at least one character)
makes the recursion structural. -/
def applySub (m : List Char → Option (List Char × List Char)) : Nat → List Char → List Char
  | 0, l => l
  | _ + 1, [] => []
  | fuel + 1, c :: cs =>
    match m (c :: cs) with
    | some (repl, rest) => repl ++ applySub m fuel rest
    | none => c :: applySub m fuel cs

/-- Global substitution on strings, the embedding of one `re.sub` call. -/
def reSub (m : List Char → Option (List Char × List Char)) (s : String) : String :=
  String.mk (applySub m s.data.length s.data)

/-- The full rewrite pass of `fix_comparison_tests.py`: its three
substitutions applied in order. -/
def pipeline1 (s : String) : String :=
  reSub matchBraceComma (reSub matchUnitBreakdown (reSub matchCacheMisses s))

/-- The full rewrite pass of `scripts/fix_cache_stats.py`: its three
substitutions applied in order. -/
def pipeline2 (s : String) : String :=
  reSub matchFrequency (reSub matchInlineCacheStats (reSub matchConstCacheStats s))

/-- Whether the matcher succeeds at some position of the input. -/
def containsMatch (m : List Char → Option (List Char × List Char)) : List Char → Bool
  | [] => (m []).isSome
  | c :: cs => (m (c :: cs)).isSome || containsMatch m cs

/-- The input is free of the patterns of `fix_comparison_tests.py`. -/
def clean1 (s : String) : Bool :=
  !(containsMatch matchCacheMisses s.data) &&
  !(containsMatch matchUnitBreakdown s.data) &&
  !(containsMatch matchBraceComma s.data)

/-- The input is free of the patterns of `scripts/fix_cache_stats.py`. -/
def clean2 (s : String) : Bool :=
  !(containsMatch matchConstCacheStats s.data) &&
  !(containsMatch matchInlineCacheStats s.data) &&
  !(containsMatch matchFrequency s.data)

/-! Helper lemmas about the matching combinators. -/

lemma length_takeWhile_le (p : Char → Bool) (l : List Char) :
    (l.takeWhile p).length ≤ l.length := by
  induction l with
  | nil => simp
  | cons c cs ih =>
    rw [List.takeWhile_cons]
    by_cases h : p c
    · simpa [h] using ih
    · simp [h]

lemma lit_spec {p l r : List Char} (h : lit p l = some r) : l = p ++ r := by
  induction p generalizing l with
  | nil => simpa [lit] using h
  | cons x ps ih =>
    cases l with
    | nil => simp [lit] at h
    | cons c cs =>
      rw [lit] at h
      by_cases hc : c = x
      · rw [if_pos hc] at h
        subst hc
        simpa using ih h
      · rw [if_neg hc] at h
        exact absurd h (by simp)

lemma lit_append (p r : List Char) : lit p (p ++ r) = some r := by
  induction p with
  | nil => rfl
  | cons x ps ih => simp [lit, ih]

lemma takeWhile_append_cons {p : Char → Bool} {A B : List Char} {c : Char}
    (hA : ∀ a ∈ A, p a = true) (hc : p c = false) :
    (A ++ c :: B).takeWhile p = A := by
  induction A with
  | nil => simp [List.takeWhile_cons, hc]
  | cons a A₂ ih =>
    have ha : p a = true := hA a (by simp)
    simp only [List.cons_append, List.takeWhile_cons, ha, if_true]
    exact congrArg (a :: ·) (ih (fun x hx => hA x (by simp [hx])))

lemma dropWhile_append_cons {p : Char → Bool} {A B : List Char} {c : Char}
    (hA : ∀ a ∈ A, p a = true) (hc : p c = false) :
    (A ++ c :: B).dropWhile p = c :: B := by
  induction A with
  | nil => simp [List.dropWhile_cons, hc]
  | cons a A₂ ih =>
    have ha : p a = true := hA a (by simp)
    simp only [List.cons_append, List.dropWhile_cons, ha, if_true]
    exact ih (fun x hx => hA x (by simp [hx]))

lemma plus1_eq_some {p : Char → Bool} {l tk r : List Char}
    (h : plus1 p l = some (tk, r)) :
    l = tk ++ r ∧ tk ≠ [] ∧ ∀ c ∈ tk, p c = true := by
  rw [plus1] at h
  by_cases h0 : l.takeWhile p = []
  · rw [if_pos h0] at h
    exact absurd h (by simp)
  · rw [if_neg h0] at h
    simp only [Option.some.injEq, Prod.mk.injEq] at h
    obtain ⟨htk, hr⟩ := h
    refine ⟨?_, ?_, ?_⟩
    · rw [← htk, ← hr, List.takeWhile_append_dropWhile]
    · rw [← htk]; exact h0
    · intro c hc
      rw [← htk] at hc
      exact List.mem_takeWhile_imp hc

lemma plus1_append_cons {p : Char → Bool} {A B : List Char} {c : Char}
    (hA : ∀ a ∈ A, p a = true) (hne : A ≠ []) (hc : p c = false) :
    plus1 p (A ++ c :: B) = some (A, c :: B) := by
  rw [plus1, takeWhile_append_cons hA hc, dropWhile_append_cons hA hc, if_neg hne]

lemma hasNewline_eq_false_elim {L : List Char} (h : hasNewline L = false) :
    ∀ c ∈ L, (!(c = '\n')) = true := by
  induction L with
  | nil => simp
  | cons a as ih =>
    rw [hasNewline] at h
    simp only [Bool.or_eq_false_iff] at h
    intro c hc
    rcases List.mem_cons.mp hc with rfl | hc
    · simp [h.1]
    · exact ih h.2 c hc

lemma wsNl_append {sep B : List Char} {c : Char}
    (hsep : ∀ a ∈ sep, isSpaceChar a = true) (hnl : hasNewline sep = true)
    (hc : isSpaceChar c = false) :
    wsNl (sep ++ c :: B) = some (c :: B) := by
  rw [wsNl, takeWhile_append_cons hsep hc, dropWhile_append_cons hsep hc, if_pos hnl]

lemma afterLastNl_cons_of_no_nl {T : List Char} (h : hasNewline T = false) :
    afterLastNl ('\n' :: T) = T := by
  rw [afterLastNl, List.reverse_cons,
    takeWhile_append_cons (fun a ha => hasNewline_eq_false_elim h a (List.mem_reverse.mp ha))
      (by simp), List.reverse_reverse]

lemma wsUpToNl_cons_nl {rest : List Char}
    (h : hasNewline (rest.takeWhile isSpaceChar) = false) :
    wsUpToNl ('\n' :: rest) = some rest := by
  have h1 : ('\n' :: rest).takeWhile isSpaceChar = '\n' :: rest.takeWhile isSpaceChar := by
    rw [List.takeWhile_cons, if_pos (by decide)]
  have h2 : ('\n' :: rest).dropWhile isSpaceChar = rest.dropWhile isSpaceChar := by
    rw [List.dropWhile_cons, if_pos (by decide)]
  rw [wsUpToNl, h1, h2, if_pos (by rw [hasNewline]; simp), afterLastNl_cons_of_no_nl h,
    List.takeWhile_append_dropWhile]

lemma afterLastNl_length_le (l : List Char) : (afterLastNl l).length ≤ l.length := by
  rw [afterLastNl, List.length_reverse]
  calc (l.reverse.takeWhile (fun c => !(c = '\n'))).length
      ≤ l.reverse.length := length_takeWhile_le _ _
    _ = l.length := List.length_reverse l

lemma wsUpToNl_length_le {l r : List Char} (h : wsUpToNl l = some r) :
    r.length ≤ l.length := by
  rw [wsUpToNl] at h
  by_cases h0 : hasNewline (l.takeWhile isSpaceChar) = true
  · rw [if_pos h0] at h
    have hr : r = afterLastNl (l.takeWhile isSpaceChar) ++ l.dropWhile isSpaceChar := by
      exact (Option.some.injEq _ _ ▸ h).symm
    have hsplit : (l.takeWhile isSpaceChar).length + (l.dropWhile isSpaceChar).length = l.length := by
      rw [← List.length_append, List.takeWhile_append_dropWhile]
    have := afterLastNl_length_le (l.takeWhile isSpaceChar)
    rw [hr, List.length_append]
    omega
  · rw [if_neg h0] at h
    exact absurd h (by simp)

lemma optComma_append_of_space {sep X : List Char}
    (hsep : ∀ a ∈ sep, isSpaceChar a = true) (hne : sep ≠ []) :
    optComma (sep ++ X) = sep ++ X := by
  cases sep with
  | nil => exact absurd rfl hne
  | cons s0 s₂ =>
    have hs0 : isSpaceChar s0 = true := hsep s0 (by simp)
    have : (s0 = ',') = False := by
      by_cases hq : s0 = ','
      · rw [hq] at hs0; exact absurd hs0 (by decide)
      · simp [hq]
    rw [List.cons_append, optComma, if_neg (by simp [this])]

/-! Lemmas about the substitution driver. -/

lemma applySub_nil (m : List Char → Option (List Char × List Char)) (fuel : Nat) :
    applySub m fuel [] = [] := by
  cases fuel <;> rfl

lemma applySub_of_not_contains {m : List Char → Option (List Char × List Char)}
    {l : List Char} (fuel : Nat) (h : containsMatch m l = false) :
    applySub m fuel l = l := by
  induction fuel generalizing l with
  | zero => rfl
  | succ f ih =>
    cases l with
    | nil => rfl
    | cons c cs =>
      rw [containsMatch] at h
      simp only [Bool.or_eq_false_iff] at h
      have hm : m (c :: cs) = none := by
        cases hmm : m (c :: cs) with
        | none => rfl
        | some v => rw [hmm] at h; simp at h
      simp only [applySub, hm]
      exact congrArg (c :: ·) (ih h.2)

lemma reSub_of_not_contains {m : List Char → Option (List Char × List Char)}
    {s : String} (h : containsMatch m s.data = false) : reSub m s = s := by
  rw [reSub, applySub_of_not_contains _ h]

lemma applySub_fuel_irrel {m : List Char → Option (List Char × List Char)}
    (hm : ∀ l r rest, m l = some (r, rest) → rest.length < l.length) :
    ∀ (f1 f2 : Nat) (l : List Char), l.length ≤ f1 → l.length ≤ f2 →
      applySub m f1 l = applySub m f2 l := by
  intro f1
  induction f1 with
  | zero =>
    intro f2 l h1 _
    have hl : l = [] := List.eq_nil_of_length_eq_zero (Nat.le_zero.mp h1)
    subst hl
    rw [applySub_nil, applySub_nil]
  | succ f ih =>
    intro f2 l h1 h2
    cases l with
    | nil => rw [applySub_nil, applySub_nil]
    | cons c cs =>
      cases f2 with
      | zero => simp at h2
      | succ f₂ =>
        rw [List.length_cons] at h1 h2
        cases hmm : m (c :: cs) with
        | none =>
          simp only [applySub, hmm]
          exact congrArg (c :: ·) (ih f₂ cs (by omega) (by omega))
        | some pr =>
          obtain ⟨repl, rest⟩ := pr
          have hlt := hm _ _ _ hmm
          rw [List.length_cons] at hlt
          simp only [applySub, hmm]
          exact congrArg (repl ++ ·) (ih f₂ rest (by omega) (by omega))

/-! The full pass is the identity on inputs free of its patterns. -/

lemma pipeline1_of_clean {x : String} (h : clean1 x = true) : pipeline1 x = x := by
  rw [clean1] at h
  simp only [Bool.and_eq_true, Bool.not_eq_true'] at h
  rw [pipeline1, reSub_of_not_contains h.1.1, reSub_of_not_contains h.1.2,
    reSub_of_not_contains h.2]

lemma pipeline2_of_clean {x : String} (h : clean2 x = true) : pipeline2 x = x := by
  rw [clean2] at h
  simp only [Bool.and_eq_true, Bool.not_eq_true'] at h
  rw [pipeline2, reSub_of_not_contains h.1.1, reSub_of_not_contains h.1.2,
    reSub_of_not_contains h.2]

/-! Structural facts about the individual matchers. -/

lemma matchFrequency_shrink {l r rest : List Char}
    (h : matchFrequency l = some (r, rest)) : rest.length < l.length := by
  rw [matchFrequency] at h
  simp only [Option.bind_eq_some] at h
  obtain ⟨r1, h1, h⟩ := h
  obtain ⟨⟨tk, r2⟩, h2, h⟩ := h
  obtain ⟨r3, h3, h⟩ := h
  obtain ⟨r4, h4, h⟩ := h
  simp only [Option.some.injEq, Prod.mk.injEq] at h
  obtain ⟨-, hrest⟩ := h
  subst hrest
  have e1 := lit_spec h1
  obtain ⟨e2, htk, -⟩ := plus1_eq_some h2
  have e3 := lit_spec h3
  have e4 := wsUpToNl_length_le h4
  have hpos : 0 < tk.length := List.length_pos.mpr htk
  subst e3
  subst e2
  subst e1
  simp only [List.length_append, List.length_cons, List.length_nil]
  omega

lemma matchFrequency_at_line {R : List Char}
    (h : hasNewline (R.takeWhile isSpaceChar) = false) :
    matchFrequency ('f' :: (("requency: 0.5,\n").data ++ R)) = some ([], R) := by
  have e : 'f' :: (("requency: 0.5,\n").data ++ R) =
      litFrequencyKey ++ (['0', '.', '5'] ++ (',' :: '\n' :: R)) := rfl
  have s2 : plus1 isNumDot (['0', '.', '5'] ++ (',' :: '\n' :: R)) =
      some (['0', '.', '5'], ',' :: '\n' :: R) :=
    plus1_append_cons (by decide) (by decide) (by decide)
  have s3 : lit [','] (',' :: '\n' :: R) = some ('\n' :: R) := rfl
  have s4 : wsUpToNl ('\n' :: R) = some R := wsUpToNl_cons_nl h
  rw [matchFrequency, e, lit_append]
  simp only [Option.some_bind, s2, s3, s4]

lemma matchUnitBreakdown_whole {a b sep : List Char}
    (ha : ∀ c ∈ a, isNotRBrace c = true) (hane : a ≠ [])
    (hb : ∀ c ∈ b, isNotRBrace c = true) (hbne : b ≠ [])
    (hsep : ∀ c ∈ sep, isSpaceChar c = true) (hnl : hasNewline sep = true) :
    matchUnitBreakdown
        (litUnitBreakdownKey ++ (a ++ ('\x7d' :: (sep ++ (litUnitBreakdownKey ++ (b ++ ['\x7d'])))))) =
      some (litUnitBreakdownKey ++ a ++ ['\x7d'], []) := by
  have hsepne : sep ≠ [] := by
    intro hh
    rw [hh] at hnl
    exact absurd hnl (by decide)
  have s1 : plus1 isNotRBrace (a ++ ('\x7d' :: (sep ++ (litUnitBreakdownKey ++ (b ++ ['\x7d']))))) =
      some (a, '\x7d' :: (sep ++ (litUnitBreakdownKey ++ (b ++ ['\x7d'])))) :=
    plus1_append_cons ha hane (by decide)
  have s2 : lit ['\x7d'] ('\x7d' :: (sep ++ (litUnitBreakdownKey ++ (b ++ ['\x7d'])))) =
      some (sep ++ (litUnitBreakdownKey ++ (b ++ ['\x7d']))) := rfl
  have s3 : optComma (sep ++ (litUnitBreakdownKey ++ (b ++ ['\x7d']))) =
      sep ++ (litUnitBreakdownKey ++ (b ++ ['\x7d'])) :=
    optComma_append_of_space hsep hsepne
  have s4 : wsNl (sep ++ (litUnitBreakdownKey ++ (b ++ ['\x7d']))) =
      some (litUnitBreakdownKey ++ (b ++ ['\x7d'])) := by
    have e4 : litUnitBreakdownKey ++ (b ++ ['\x7d']) =
        'u' :: (("nitBreakdown: \x7b").data ++ (b ++ ['\x7d'])) := rfl
    rw [e4]
    exact wsNl_append hsep hnl (by decide)
  have s5 : plus1 isNotRBrace (b ++ ['\x7d']) = some (b, ['\x7d']) := by
    have e5 : b ++ ['\x7d'] = b ++ ('\x7d' :: []) := rfl
    rw [e5]
    exact plus1_append_cons hb hbne (by decide)
  have s6 : lit ['\x7d'] ['\x7d'] = some [] := rfl
  rw [matchUnitBreakdown, lit_append]
  simp only [Option.some_bind, s1, s2, s3, s4, lit_append, s5, s6]

lemma isWordChar_not_eqsign {c : Char} (h : isWordChar c = true) : (!(c = '=')) = true := by
  by_cases hc : c = '='
  · rw [hc] at h
    exact absurd h (by decide)
  · simp [hc]

lemma matchConstCacheStats_spec {l r rest : List Char}
    (h : matchConstCacheStats l = some (r, rest)) :
    ∃ consumed, l = consumed ++ rest ∧
      r.takeWhile (fun c => !(c = '=')) = consumed.takeWhile (fun c => !(c = '=')) ∧
      r = consumed.takeWhile (fun c => !(c = '=')) ++ '=' :: ' ' :: (completeCacheStats.data ++ [';']) := by
  rw [matchConstCacheStats] at h
  simp only [Option.bind_eq_some] at h
  obtain ⟨r1, h1, h⟩ := h
  obtain ⟨⟨nm, r2⟩, h2, h⟩ := h
  obtain ⟨r3, h3, h⟩ := h
  obtain ⟨r4, h4, h⟩ := h
  obtain ⟨⟨body, r5⟩, h5, h⟩ := h
  obtain ⟨r6, h6, h⟩ := h
  simp only [Option.some.injEq, Prod.mk.injEq] at h
  obtain ⟨hr, hrest⟩ := h
  subst hrest
  have e1 := lit_spec h1
  obtain ⟨e2, -, -⟩ := plus1_eq_some h2
  have e3 := lit_spec h3
  have e4 := lit_spec h4
  obtain ⟨e5, -, -⟩ := plus1_eq_some h5
  have e6 := lit_spec h6
  refine ⟨litConstKw ++ nm ++ litCacheStatsEq ++ '\x7b' :: (body ++ ['\x7d', ';']), ?_, ?_, ?_⟩
  · subst e6
    subst e5
    subst e4
    subst e3
    subst e2
    subst e1
    simp [List.append_assoc]
  · rw [← hr]
    apply takeWhile_append_cons
    · exact fun x hx => List.mem_takeWhile_imp (p := fun c => !(c = '=')) hx
    · decide
  · exact hr.symm

lemma matchInlineCacheStats_spec {l r rest : List Char}
    (h : matchInlineCacheStats l = some (r, rest)) :
    ∃ consumed, l = consumed ++ rest ∧
      r.takeWhile (fun c => !(c = '=')) = consumed.takeWhile (fun c => !(c = '=')) ∧
      r = consumed.takeWhile (fun c => !(c = '=')) ++ '=' :: ' ' :: completeCacheStats.data := by
  rw [matchInlineCacheStats] at h
  simp only [Option.bind_eq_some] at h
  obtain ⟨⟨nm, r1⟩, h1, h⟩ := h
  obtain ⟨r2, h2, h⟩ := h
  obtain ⟨r3, h3, h⟩ := h
  obtain ⟨⟨body, r4⟩, h4, h⟩ := h
  obtain ⟨r5, h5, h⟩ := h
  simp only [Option.some.injEq, Prod.mk.injEq] at h
  obtain ⟨hr, hrest⟩ := h
  subst hrest
  obtain ⟨e1, -, hnm⟩ := plus1_eq_some h1
  have e2 := lit_spec h2
  have e3 := lit_spec h3
  obtain ⟨e4, -, -⟩ := plus1_eq_some h4
  have e5 := lit_spec h5
  have hpre : ∀ X : List Char,
      litCacheStatsEq ++ X = (": CacheStats ").data ++ '=' :: ' ' :: X := fun X => rfl
  have hsat : ∀ c ∈ nm ++ (": CacheStats ").data, (!(c = '=')) = true := by
    intro c hc
    rcases List.mem_append.mp hc with hc | hc
    · exact isWordChar_not_eqsign (hnm c hc)
    · have hall : ∀ x ∈ (": CacheStats ").data, (!(x = '=')) = true := by decide
      exact hall c hc
  have htw : ∀ X : List Char,
      ((nm ++ (": CacheStats ").data) ++ '=' :: ' ' :: X).takeWhile (fun c => !(c = '=')) =
        nm ++ (": CacheStats ").data := fun X => takeWhile_append_cons hsat (by decide)
  refine ⟨nm ++ litCacheStatsEq ++ '\x7b' :: (body ++ ['\x7d']), ?_, ?_, ?_⟩
  · subst e5
    subst e4
    subst e3
    subst e2
    subst e1
    simp [List.append_assoc]
  · rw [← hr]
    have hr2 : nm ++ litCacheStatsEq ++ completeCacheStats.data =
        (nm ++ (": CacheStats ").data) ++ '=' :: ' ' :: completeCacheStats.data := by
      rw [List.append_assoc, hpre, ← List.append_assoc]
    have hc2 : nm ++ litCacheStatsEq ++ '\x7b' :: (body ++ ['\x7d']) =
        (nm ++ (": CacheStats ").data) ++ '=' :: ' ' :: ('\x7b' :: (body ++ ['\x7d'])) := by
      rw [List.append_assoc, hpre, ← List.append_assoc]
    rw [hr2, hc2, htw, htw]
  · rw [← hr]
    have hc2 : nm ++ litCacheStatsEq ++ '\x7b' :: (body ++ ['\x7d']) =
        (nm ++ (": CacheStats ").data) ++ '=' :: ' ' :: ('\x7b' :: (body ++ ['\x7d'])) := by
      rw [List.append_assoc, hpre, ← List.append_assoc]
    have hr2 : nm ++ litCacheStatsEq ++ completeCacheStats.data =
        (nm ++ (": CacheStats ").data) ++ '=' :: ' ' :: completeCacheStats.data := by
      rw [List.append_assoc, hpre, ← List.append_assoc]
    rw [hr2, hc2, htw]

/-! A match at position zero that consumes the whole input rewrites the
whole document to the replacement. -/

lemma applySub_whole_match {m : List Char → Option (List Char × List Char)}
    {l repl : List Char} (hne : l ≠ []) (hm : m l = some (repl, [])) :
    applySub m l.length l = repl := by
  cases l with
  | nil => exact absurd rfl hne
  | cons c cs =>
    rw [List.length_cons]
    simp only [applySub, hm]
    rw [applySub_nil, List.append_nil]

lemma reSub_whole_match {m : List Char → Option (List Char × List Char)}
    {l repl : List Char} (hne : l ≠ []) (hm : m l = some (repl, [])) :
    reSub m (String.mk l) = String.mk repl := by
  rw [reSub]
  exact congrArg String.mk (applySub_whole_match hne hm)

/-! Model of the scripts' file handling.  Each script performs
`open(path) / read / transform / open(path, 'w') / write` with no
exception handling; we model the one file the script touches. -/

/-- I/O failure modes of a script run: the initial read failing (missing
or unreadable path) or the final write failing (unwritable path). -/
inductive IOFailure where
  | readFailure : IOFailure
  | writeFailure : IOFailure
deriving DecidableEq

/-- On-disk state of the single file a script touches: `content` is
`some` text when the path exists and is readable, `none` otherwise;
`writable` records whether the path accepts the final write. -/
structure FileState where
  content : Option String
  writable : Bool

/-- A whole script run: read the file, transform the content with the
given full rewrite pass, write the result back.  The first component is
the outcome (the scripts install no exception handler, so a failure
escapes to the caller), the second the resulting on-disk state; when the
read fails the write is never attempted and the state is returned
untouched. -/
def runScript (pass : String → String) (fs : FileState) : Except IOFailure Unit × FileState :=
  match fs.content with
  | none => (Except.error IOFailure.readFailure, fs)
  | some c =>
    if fs.writable then (Except.ok (), ⟨some (pass c), fs.writable⟩)
    else (Except.error IOFailure.writeFailure, fs)

/-! The claims. -/

/-- Claim C1, counterexample: the full pass of `fix_comparison_tests.py`
is not idempotent on every input.  On three adjacent duplicated
`cacheMisses` lines one pass removes only the second line (scanning
resumes after the replaced span, as `re.sub` does), leaving a new
adjacent duplicate that a second pass then removes. -/
theorem patch_idempotent_counterexample :
    pipeline1 (pipeline1 ("cacheMisses: 1,\ncacheMisses: 2,\ncacheMisses: 3,")) ≠
      pipeline1 ("cacheMisses: 1,\ncacheMisses: 2,\ncacheMisses: 3,") := by
  decide

/-- Claim C1, amended: as the spec itself qualifies, idempotence holds for
inputs already free of the patterns being fixed; on such inputs each
script's full pass applied twice agrees with one application. -/
theorem patch_idempotent_on_clean (x : String) (h1 : clean1 x = true) (h2 : clean2 x = true) :
    pipeline1 (pipeline1 x) = pipeline1 x ∧ pipeline2 (pipeline2 x) = pipeline2 x := by
  rw [pipeline1_of_clean h1, pipeline2_of_clean h2]
  exact ⟨pipeline1_of_clean h1, pipeline2_of_clean h2⟩

/-- Claim C1, witness for the amended theorem at a concrete clean input. -/
theorem patch_idempotent_on_clean_witness :
    pipeline1 (pipeline1 ("hello;\n")) = pipeline1 ("hello;\n") ∧
    pipeline2 (pipeline2 ("hello;\n")) = pipeline2 ("hello;\n") :=
  patch_idempotent_on_clean ("hello;\n") (by decide) (by decide)

/-- Claim C2: on input free of every target pattern of the two scripts,
each script's full pass returns the input unchanged. -/
theorem patch_noop_on_clean (x : String) (h1 : clean1 x = true) (h2 : clean2 x = true) :
    pipeline1 x = x ∧ pipeline2 x = x :=
  ⟨pipeline1_of_clean h1, pipeline2_of_clean h2⟩

/-- Claim C2, witness at a concrete clean input. -/
theorem patch_noop_on_clean_witness :
    pipeline1 ("const x = 1;\n") = ("const x = 1;\n") ∧
    pipeline2 ("const x = 1;\n") = ("const x = 1;\n") :=
  patch_noop_on_clean ("const x = 1;\n") (by decide) (by decide)

/-- Claim C3, counterexample: the first script's deduplication rule is
hard-coded to the key `cacheMisses`; on the spec's example input
`"x: 1,\nx: 1,\n"` the full pass matches nothing and returns the input
unchanged rather than the claimed `"x: 1,\n"`. -/
theorem dedup_keyvalue_counterexample :
    pipeline1 ("x: 1,\nx: 1,\n") = ("x: 1,\nx: 1,\n") ∧
    ("x: 1,\nx: 1,\n" : String) ≠ ("x: 1,\n") :=
  ⟨by decide, by decide⟩

/-- Claim C3, amended: with the hard-coded key `cacheMisses` in place of
the schematic key `x`, an adjacent repeated key-value line is collapsed to
a single occurrence, keeping the first. -/
theorem dedup_keyvalue_amended :
    pipeline1 ("cacheMisses: 1,\ncacheMisses: 1,\n") = ("cacheMisses: 1,\n") := by
  decide

/-- Claim C4, counterexample: the first script's third rule requires a
closing brace directly before the comma (`},\s*}`); on the spec's example
input `"value,\n}"` the full pass matches nothing and returns the input
unchanged rather than the claimed `"value\n}"`. -/
theorem trailing_comma_counterexample :
    pipeline1 ("value,\n\x7d") = ("value,\n\x7d") ∧
    ("value,\n\x7d" : String) ≠ ("value\n\x7d") :=
  ⟨by decide, by decide⟩

/-- Claim C4, amended: only a comma sitting between two closing braces is
rewritten, and the rewrite replaces the matched span by the fixed text of
a brace, a newline and six spaces, and a brace. -/
theorem trailing_comma_amended :
    pipeline1 ("\x7d,\n\x7d") = ("\x7d\n      \x7d") := by
  decide

set_option maxRecDepth 8000 in
/-- Claim C5: on `"const s: CacheStats = { hits: 1 };"` the second
script's full pass replaces the whole right-hand side with the canonical
complete `CacheStats` literal, keeping the declaration head. -/
theorem canonical_literal_replacement :
    pipeline2 ("const s: CacheStats = \x7b hits: 1 \x7d;") =
      ("const s: CacheStats = ") ++ completeCacheStats ++ (";") := by
  decide

/-- Claim C6, counterexample: when the deleted `frequency` line is
followed by a blank line, the greedy `\s*\n` tail also swallows the blank
line, so more than the line and its trailing newline is removed: the
output is `"x"` instead of the claimed `"\nx"`. -/
theorem frequency_line_strip_counterexample :
    pipeline2 ("frequency: 0.5,\n\nx") = ("x") ∧ ("x" : String) ≠ ("\nx") :=
  ⟨by decide, by decide⟩

/-- Claim C6, amended: the frequency-strip substitution deletes exactly
the line `"frequency: 0.5,\n"` whenever the following content does not
begin with whitespace containing a newline, and processes the remaining
content as it would on its own. -/
theorem frequency_line_strip (rest : String)
    (h : hasNewline (rest.data.takeWhile isSpaceChar) = false) :
    reSub matchFrequency (("frequency: 0.5,\n") ++ rest) = reSub matchFrequency rest := by
  have hsplit : ("frequency: 0.5,\n").data = 'f' :: ("requency: 0.5,\n").data := rfl
  have hdata : (("frequency: 0.5,\n") ++ rest).data =
      'f' :: (("requency: 0.5,\n").data ++ rest.data) := by
    rw [String.data_append, hsplit, List.cons_append]
  have hl : (("requency: 0.5,\n").data).length = 15 := rfl
  rw [reSub, hdata, List.length_cons, List.length_append, hl]
  simp only [applySub, matchFrequency_at_line h, List.nil_append]
  rw [applySub_fuel_irrel (fun a b c hh => matchFrequency_shrink hh)
    (15 + rest.data.length) rest.data.length rest.data (by omega) (by omega)]
  rfl

/-- Claim C6, witness for the amended theorem at a concrete remainder. -/
theorem frequency_line_strip_witness :
    hasNewline ((("other();\n") : String).data.takeWhile isSpaceChar) = false ∧
    reSub matchFrequency (("frequency: 0.5,\n") ++ ("other();\n")) =
      reSub matchFrequency ("other();\n") :=
  ⟨by decide, frequency_line_strip ("other();\n") (by decide)⟩

/-- Claim C7, counterexample: the second rule is hard-coded to the key
`unitBreakdown`; on a document where the generic key `foo` has an
adjacent repeated brace-delimited block value, the full pass of the first
script changes nothing and both occurrences remain. -/
theorem unitBreakdown_dedup_counterexample :
    pipeline1 ("foo: \x7ba\x7d,\nfoo: \x7ba\x7d") = ("foo: \x7ba\x7d,\nfoo: \x7ba\x7d") ∧
    ("foo: \x7ba\x7d,\nfoo: \x7ba\x7d" : String) ≠ ("foo: \x7ba\x7d") ∧
    ("foo: \x7ba\x7d,\nfoo: \x7ba\x7d" : String) ≠ ("foo: \x7ba\x7d,") :=
  ⟨by decide, by decide, by decide⟩

/-- Claim C7, amended: for the hard-coded key `unitBreakdown`, a
brace-delimited block value immediately followed, across whitespace
containing a newline, by a second `unitBreakdown` block assignment is
collapsed to the first occurrence (block bodies are nonempty and
brace-free, as the class `[^}]+` demands). -/
theorem unitBreakdown_dedup_amended (a b sep : List Char)
    (ha : ∀ c ∈ a, isNotRBrace c = true) (hane : a ≠ [])
    (hb : ∀ c ∈ b, isNotRBrace c = true) (hbne : b ≠ [])
    (hsep : ∀ c ∈ sep, isSpaceChar c = true) (hnl : hasNewline sep = true) :
    reSub matchUnitBreakdown
        (String.mk (litUnitBreakdownKey ++
          (a ++ ('\x7d' :: (sep ++ (litUnitBreakdownKey ++ (b ++ ['\x7d'])))))))
      = String.mk (litUnitBreakdownKey ++ a ++ ['\x7d']) := by
  apply reSub_whole_match
  · intro hh
    have hcons : ('u' :: (("nitBreakdown: \x7b").data ++
        (a ++ ('\x7d' :: (sep ++ (litUnitBreakdownKey ++ (b ++ ['\x7d'])))))) : List Char) = [] := hh
    exact absurd hcons (List.cons_ne_nil _ _)
  · exact matchUnitBreakdown_whole ha hane hb hbne hsep hnl

/-- Claim C7, witness for the amended theorem at concrete blocks and
separator. -/
theorem unitBreakdown_dedup_witness :
    reSub matchUnitBreakdown
        (String.mk (litUnitBreakdownKey ++
          (['a'] ++ ('\x7d' :: (['\n'] ++ (litUnitBreakdownKey ++ (['b'] ++ ['\x7d'])))))))
      = String.mk (litUnitBreakdownKey ++ ['a'] ++ ['\x7d']) :=
  unitBreakdown_dedup_amended ['a'] ['b'] ['\n'] (by decide) (by decide) (by decide) (by decide)
    (by decide) (by decide)

/-- Claim C8: each full pass is a pure function of the document string, so
two runs on the same input are identical, and each pass is exactly the
fixed sequence of its three per-rule substitutions applied in order. -/
theorem pipeline_deterministic (x : String) :
    pipeline1 x = pipeline1 x ∧ pipeline2 x = pipeline2 x ∧
    pipeline1 x = reSub matchBraceComma (reSub matchUnitBreakdown (reSub matchCacheMisses x)) ∧
    pipeline2 x = reSub matchFrequency (reSub matchInlineCacheStats (reSub matchConstCacheStats x)) :=
  ⟨rfl, rfl, rfl, rfl⟩

/-- Claim C9: a script run fails with an I/O error whenever the path is
missing or unreadable (`content = none`) or unwritable, the error is not
caught, and when the initial read fails the write step is never reached,
leaving the on-disk state untouched. -/
theorem patch_error_propagation (pass : String → String) (fs : FileState) :
    ((fs.content = none ∨ fs.writable = false) →
      ∃ e, (runScript pass fs).1 = Except.error e) ∧
    (fs.content = none → (runScript pass fs).2 = fs) := by
  constructor
  · intro h
    cases hc : fs.content with
    | none => exact ⟨IOFailure.readFailure, by simp [runScript, hc]⟩
    | some c =>
      rcases h with h | h
      · rw [hc] at h
        exact absurd h (by simp)
      · exact ⟨IOFailure.writeFailure, by simp [runScript, hc, h]⟩
  · intro h
    simp [runScript, h]

/-- Claim C9, witness at a concrete unreadable, unwritable state. -/
theorem patch_error_propagation_witness :
    (∃ e, (runScript pipeline1 ⟨none, false⟩).1 = Except.error e) ∧
    (runScript pipeline1 ⟨none, false⟩).2 = ⟨none, false⟩ :=
  ⟨(patch_error_propagation pipeline1 ⟨none, false⟩).1 (Or.inl rfl),
   (patch_error_propagation pipeline1 ⟨none, false⟩).2 rfl⟩

/-- Claim C10: in every `CacheStats` replacement of the second script —
both the `const` declaration form and the inline form — the text of the
matched span strictly before its first `=` is preserved byte-for-byte,
and the replacement is exactly that prefix followed by `"= "`, the
canonical literal, and (in the `const` form) the closing `";"`. -/
theorem cacheStats_replacement_frame (l r rest : List Char) :
    (matchConstCacheStats l = some (r, rest) →
      ∃ consumed, l = consumed ++ rest ∧
        r.takeWhile (fun c => !(c = '=')) = consumed.takeWhile (fun c => !(c = '=')) ∧
        r = consumed.takeWhile (fun c => !(c = '=')) ++
          '=' :: ' ' :: (completeCacheStats.data ++ [';'])) ∧
    (matchInlineCacheStats l = some (r, rest) →
      ∃ consumed, l = consumed ++ rest ∧
        r.takeWhile (fun c => !(c = '=')) = consumed.takeWhile (fun c => !(c = '=')) ∧
        r = consumed.takeWhile (fun c => !(c = '=')) ++ '=' :: ' ' :: completeCacheStats.data) :=
  ⟨matchConstCacheStats_spec, matchInlineCacheStats_spec⟩

set_option maxRecDepth 8000 in
/-- Claim C10, witness: both conjuncts applied at concrete matches. -/
theorem cacheStats_replacement_frame_witness :
    (∃ consumed, ("const s: CacheStats = \x7b hits: 1 \x7d;").data = consumed ++ ([] : List Char) ∧
        (("const s: CacheStats ").data ++
            '=' :: ' ' :: (completeCacheStats.data ++ [';'])).takeWhile (fun c => !(c = '=')) =
          consumed.takeWhile (fun c => !(c = '=')) ∧
        ("const s: CacheStats ").data ++ '=' :: ' ' :: (completeCacheStats.data ++ [';']) =
          consumed.takeWhile (fun c => !(c = '=')) ++
            '=' :: ' ' :: (completeCacheStats.data ++ [';'])) ∧
    (∃ consumed, ("s: CacheStats = \x7bx\x7d").data = consumed ++ ([] : List Char) ∧
        (("s: CacheStats ").data ++
            '=' :: ' ' :: completeCacheStats.data).takeWhile (fun c => !(c = '=')) =
          consumed.takeWhile (fun c => !(c = '=')) ∧
        ("s: CacheStats ").data ++ '=' :: ' ' :: completeCacheStats.data =
          consumed.takeWhile (fun c => !(c = '=')) ++ '=' :: ' ' :: completeCacheStats.data) :=
  ⟨(cacheStats_replacement_frame (("const s: CacheStats = \x7b hits: 1 \x7d;").data)
      (("const s: CacheStats ").data ++ '=' :: ' ' :: (completeCacheStats.data ++ [';'])) []).1
      (by decide),
   (cacheStats_replacement_frame (("s: CacheStats = \x7bx\x7d").data)
      (("s: CacheStats ").data ++ '=' :: ' ' :: completeCacheStats.data) []).2 (by decide)⟩

end TextPatcher
